import Mathlib

/-!
Verification of the live-data reactive data manager
(source: src/src/active-data.js) through a shallow embedding.

Each section embeds one part of the engine as executable Lean
definitions translated line by line from the source, then proves the
corresponding specification claims about them.
-/

namespace LiveData

/-!
## Model 1: observable wrapping and the observable marker

Embeds `Manager.makeObservable` (active-data.js lines 48-280),
`Manager.isObservable` (lines 419-421) and the data-value path of the
proxy `get` trap (lines 256-260).

JavaScript values are modelled by `JVal`; objects live in a heap
indexed by `Nat` ids.  A proxy produced by `makeObservable` is a heap
object whose `proxyOf` field holds its source id; reading the
per-manager `$isObservableSymbol` marker on it yields `true` (get trap
lines 217-219), while on any other object the symbol is absent and the
read yields `undefined`.  A proxy forwards `constructor` reads to its
source, so its `ctor` field is a copy of the source's.
-/

/-- Constructor tag of a JavaScript object: `Object`, `Array`, or any
other constructor (`Date`, `Map`, a class, ...). -/
inductive Ctor where
  | object
  | array
  | other
deriving DecidableEq

/-- JavaScript values: `null`, `undefined`, primitives, callables and
heap objects (records and sequences) referenced by id. -/
inductive JVal where
  | null
  | undef
  | num (n : Int)
  | str (s : String)
  | bool (b : Bool)
  | func (id : Nat)
  | obj (id : Nat)
deriving DecidableEq

/-- Heap record for one object: its constructor tag, the id of its
source when the object is a proxy made by this manager, and its own
data fields. -/
structure ObjInfo where
  ctor : Ctor
  proxyOf : Option Nat
  fields : String → JVal

/-- State of one manager for the wrapping model: the heap, the
`observables` weak map (source id to wrapper id, line 15 and lines
63/277) and the next fresh heap id. -/
structure ObsState where
  heap : Nat → Option ObjInfo
  observables : Nat → Option Nat
  nextId : Nat

/-- JavaScript truthiness, used by the `if (!dataSource)` guard at
line 50. -/
def truthy : JVal → Bool
  | .null => false
  | .undef => false
  | .num n => n != 0
  | .str s => s != ""
  | .bool b => b
  | .func _ => true
  | .obj _ => true

/-- Reading the manager's `$isObservableSymbol` on a value, i.e.
`obj[this.$isObservableSymbol] === true` (line 420).  Property access
on `null` or `undefined` throws a TypeError; on other primitives the
symbol is absent and the comparison yields `false`; on an object the
read is `true` exactly when the object is a proxy of this manager
(get trap, lines 217-219). -/
def isObservable (st : ObsState) (v : JVal) : Except String Bool :=
  match v with
  | .null => .error "TypeError: cannot read properties of null"
  | .undef => .error "TypeError: cannot read properties of undefined"
  | .obj id =>
    match st.heap id with
    | some info => .ok info.proxyOf.isSome
    | none => .ok false
  | _ => .ok false

/-- Translation of `Manager.makeObservable` (lines 48-280): return the argument when
it is falsy (line 50), when its constructor is neither `Object` nor
`Array` (lines 53-58), or when it is already a proxy of this manager
(lines 60-62); otherwise return the cached wrapper from `observables`
(line 63) or allocate a fresh proxy and cache it (lines 215-277). -/
def makeObservable (st : ObsState) (v : JVal) : ObsState × JVal :=
  if ¬ truthy v then (st, v)
  else
    match v with
    | .obj id =>
      match st.heap id with
      | none => (st, v)
      | some info =>
        if info.ctor ≠ Ctor.object ∧ info.ctor ≠ Ctor.array then (st, v)
        else if info.proxyOf.isSome then (st, v)
        else
          match st.observables id with
          | some w => (st, .obj w)
          | none =>
            let w := st.nextId
            ({ heap := fun i =>
                 if i = w then some ⟨info.ctor, some id, info.fields⟩
                 else st.heap i,
               observables := fun i =>
                 if i = id then some w else st.observables i,
               nextId := st.nextId + 1 },
             .obj w)
    | _ => (st, v)

/-- The test `typeof val === "object"` (line 257): true for heap objects and
for `null`, false for callables and other primitives. -/
def typeofObject : JVal → Bool
  | .obj _ => true
  | .null => true
  | _ => false

/-- Ordinary data-key path of the proxy `get` trap (lines 256-260):
read the own field of the source; wrap the result with
`makeObservable` when `typeof val === "object"`, else return it
verbatim.  (The marker, `dataSourceKey`, accessor, call-stack and
watch-key branches of the trap, lines 217-254, are modelled in the
other sections.) -/
def proxyGet (st : ObsState) (srcId : Nat) (key : String) : ObsState × JVal :=
  match st.heap srcId with
  | none => (st, .undef)
  | some info =>
    let val := info.fields key
    if typeofObject val then makeObservable st val
    else (st, val)

/-- Well-formedness of a manager state: heap ids at or above `nextId`
are unallocated, and every entry of the `observables` map pairs a
non-proxy source with a proxy recording that source. -/
structure WFobs (st : ObsState) : Prop where
  dom : ∀ i, st.nextId ≤ i → st.heap i = none
  obsWrap : ∀ s w, st.observables s = some w →
    ∃ info, st.heap s = some info ∧ info.proxyOf = none ∧
      st.heap w = some ⟨info.ctor, some s, info.fields⟩

lemma makeObservable_ne_obj (st : ObsState) (v : JVal)
    (h : ∀ id, v ≠ JVal.obj id) : makeObservable st v = (st, v) := by
  cases v <;> simp [makeObservable, truthy]
  case obj id => exact absurd rfl (h id)

lemma makeObservable_inert (st : ObsState) (id : Nat) (info : ObjInfo)
    (h : st.heap id = some info)
    (hc : info.ctor ≠ Ctor.object ∧ info.ctor ≠ Ctor.array) :
    makeObservable st (JVal.obj id) = (st, JVal.obj id) := by
  simp only [makeObservable, truthy, h]
  simp [hc.1, hc.2]

lemma makeObservable_marked (st : ObsState) (id : Nat) (info : ObjInfo)
    (h : st.heap id = some info) (hp : info.proxyOf.isSome = true) :
    makeObservable st (JVal.obj id) = (st, JVal.obj id) := by
  simp only [makeObservable, truthy, h]
  by_cases hc : info.ctor ≠ Ctor.object ∧ info.ctor ≠ Ctor.array <;>
    simp [hc, hp]

lemma makeObservable_cached (st : ObsState) (id : Nat) (info : ObjInfo)
    (w : Nat) (h : st.heap id = some info)
    (hco : info.ctor = Ctor.object ∨ info.ctor = Ctor.array)
    (hp : info.proxyOf = none) (hw : st.observables id = some w) :
    makeObservable st (JVal.obj id) = (st, JVal.obj w) := by
  have hc : ¬ (info.ctor ≠ Ctor.object ∧ info.ctor ≠ Ctor.array) := by
    rcases hco with hco | hco <;> simp [hco]
  simp [makeObservable, truthy, h, hc, hp, hw]

lemma makeObservable_fresh (st : ObsState) (id : Nat) (info : ObjInfo)
    (h : st.heap id = some info)
    (hco : info.ctor = Ctor.object ∨ info.ctor = Ctor.array)
    (hp : info.proxyOf = none) (hw : st.observables id = none) :
    makeObservable st (JVal.obj id) =
      ({ heap := fun i =>
           if i = st.nextId then some ⟨info.ctor, some id, info.fields⟩
           else st.heap i,
         observables := fun i =>
           if i = id then some st.nextId else st.observables i,
         nextId := st.nextId + 1 },
       JVal.obj st.nextId) := by
  have hc : ¬ (info.ctor ≠ Ctor.object ∧ info.ctor ≠ Ctor.array) := by
    rcases hco with hco | hco <;> simp [hco]
  simp [makeObservable, truthy, h, hc, hp, hw]

/-- C2: `observable` is idempotent with stable identity.  For any value
`v` over a well-formed manager state whose object argument is
allocated, calling `makeObservable` twice on `v` returns the same
wrapper and leaves the state unchanged after the first call, and
calling `makeObservable` on the wrapper returned by the first call
returns that wrapper unchanged (active-data.js lines 48-63, 277). -/
theorem observable_idempotent_stable (st : ObsState) (v : JVal)
    (hWF : WFobs st) (hheap : ∀ id, v = JVal.obj id → st.heap id ≠ none) :
    (makeObservable (makeObservable st v).1 v).2 = (makeObservable st v).2 ∧
    (makeObservable (makeObservable st v).1 v).1 = (makeObservable st v).1 ∧
    (makeObservable (makeObservable st v).1 (makeObservable st v).2).2 =
      (makeObservable st v).2 ∧
    (makeObservable (makeObservable st v).1 (makeObservable st v).2).1 =
      (makeObservable st v).1 := by
  by_cases hobj : ∀ id, v ≠ JVal.obj id
  · have h1 := makeObservable_ne_obj st v hobj
    rw [h1]
    exact ⟨by rw [h1], by rw [h1], by rw [h1], by rw [h1]⟩
  · push_neg at hobj
    obtain ⟨id, rfl⟩ := hobj
    obtain ⟨info, hinfo⟩ : ∃ info, st.heap id = some info := by
      cases hh : st.heap id with
      | none => exact absurd hh (hheap id rfl)
      | some info => exact ⟨info, rfl⟩
    by_cases hco : info.ctor = Ctor.object ∨ info.ctor = Ctor.array
    · cases hp : info.proxyOf with
      | some s =>
        have h1 := makeObservable_marked st id info hinfo (by rw [hp]; rfl)
        rw [h1]
        exact ⟨by rw [h1], by rw [h1], by rw [h1], by rw [h1]⟩
      | none =>
        cases hw : st.observables id with
        | some w =>
          have h1 := makeObservable_cached st id info w hinfo hco hp hw
          obtain ⟨info2, hs2, _, hwheap⟩ := hWF.obsWrap id w hw
          have hi2 : info2 = info := by
            rw [hinfo] at hs2; exact (Option.some.injEq _ _ ▸ hs2).symm
          rw [hi2] at hwheap
          have h2 := makeObservable_marked st w ⟨info.ctor, some id, info.fields⟩
            hwheap rfl
          rw [h1]
          exact ⟨by rw [h1], by rw [h1], by rw [h2], by rw [h2]⟩
        | none =>
          have h1 := makeObservable_fresh st id info hinfo hco hp hw
          have hidlt : id < st.nextId := by
            by_contra hge
            exact absurd (hWF.dom id (Nat.le_of_not_lt hge)) (by rw [hinfo]; simp)
          have hidne : id ≠ st.nextId := Nat.ne_of_lt hidlt
          rw [h1]
          constructor
          · rw [makeObservable_cached _ id info st.nextId
              (by simp [hidne, hinfo]) hco hp (by simp)]
          constructor
          · rw [makeObservable_cached _ id info st.nextId
              (by simp [hidne, hinfo]) hco hp (by simp)]
          constructor
          · rw [makeObservable_marked _ st.nextId ⟨info.ctor, some id, info.fields⟩
              (by simp) rfl]
          · rw [makeObservable_marked _ st.nextId ⟨info.ctor, some id, info.fields⟩
              (by simp) rfl]
    · have hc : info.ctor ≠ Ctor.object ∧ info.ctor ≠ Ctor.array :=
        ⟨fun h => hco (Or.inl h), fun h => hco (Or.inr h)⟩
      have h1 := makeObservable_inert st id info hinfo hc
      rw [h1]
      exact ⟨by rw [h1], by rw [h1], by rw [h1], by rw [h1]⟩

/-- Concrete well-formed state holding one plain record at id 0, used
to witness the wrapping theorems. -/
def recState : ObsState :=
  { heap := fun i =>
      if i = 0 then some ⟨Ctor.object, none, fun _ => JVal.null⟩ else none,
    observables := fun _ => none,
    nextId := 1 }

lemma recState_WF : WFobs recState := by
  constructor
  · intro i hi
    simp only [recState] at hi ⊢
    have h0 : i ≠ 0 := by omega
    simp [h0]
  · intro s w h
    simp [recState] at h

theorem observable_idempotent_stable_witness :
    (makeObservable (makeObservable recState (JVal.obj 0)).1 (JVal.obj 0)).2 =
      (makeObservable recState (JVal.obj 0)).2 ∧
    (makeObservable (makeObservable recState (JVal.obj 0)).1 (JVal.obj 0)).1 =
      (makeObservable recState (JVal.obj 0)).1 ∧
    (makeObservable (makeObservable recState (JVal.obj 0)).1
        (makeObservable recState (JVal.obj 0)).2).2 =
      (makeObservable recState (JVal.obj 0)).2 ∧
    (makeObservable (makeObservable recState (JVal.obj 0)).1
        (makeObservable recState (JVal.obj 0)).2).1 =
      (makeObservable recState (JVal.obj 0)).1 :=
  observable_idempotent_stable recState (JVal.obj 0) recState_WF
    (by intro id h; cases h; simp [recState])

lemma isObservable_of_makeObservable (st : ObsState) (vid : Nat)
    (vinfo : ObjInfo) (hWF : WFobs st) (hv : st.heap vid = some vinfo)
    (hco : vinfo.ctor = Ctor.object ∨ vinfo.ctor = Ctor.array) :
    isObservable (makeObservable st (JVal.obj vid)).1
      (makeObservable st (JVal.obj vid)).2 = Except.ok true := by
  cases hp : vinfo.proxyOf with
  | some s =>
    rw [makeObservable_marked st vid vinfo hv (by rw [hp]; rfl)]
    simp [isObservable, hv, hp]
  | none =>
    cases hw : st.observables vid with
    | some w =>
      rw [makeObservable_cached st vid vinfo w hv hco hp hw]
      obtain ⟨info2, _, _, hwheap⟩ := hWF.obsWrap vid w hw
      simp [isObservable, hwheap]
    | none =>
      rw [makeObservable_fresh st vid vinfo hv hco hp hw]
      simp [isObservable]

/-- C8 (amended): classification of `isObservable` (active-data.js
lines 419-421).  Reading a record/sequence-valued key through the
proxy `get` trap (lines 256-260) yields a value on which
`isObservable` returns `true`; on primitives other than `null` and
`undefined` and on callables it returns `false`; on `null` and
`undefined` it throws a TypeError, because line 420 reads a property
of its argument. -/
theorem isObservable_classification (st : ObsState) (hWF : WFobs st) :
    (∀ srcId info key vid vinfo,
      st.heap srcId = some info →
      info.fields key = JVal.obj vid →
      st.heap vid = some vinfo →
      (vinfo.ctor = Ctor.object ∨ vinfo.ctor = Ctor.array) →
      isObservable (proxyGet st srcId key).1 (proxyGet st srcId key).2 =
        Except.ok true) ∧
    (∀ n, isObservable st (JVal.num n) = Except.ok false) ∧
    (∀ s, isObservable st (JVal.str s) = Except.ok false) ∧
    (∀ b, isObservable st (JVal.bool b) = Except.ok false) ∧
    (∀ fid, isObservable st (JVal.func fid) = Except.ok false) ∧
    isObservable st JVal.null =
      Except.error "TypeError: cannot read properties of null" ∧
    isObservable st JVal.undef =
      Except.error "TypeError: cannot read properties of undefined" := by
  refine ⟨?_, fun n => rfl, fun s => rfl, fun b => rfl, fun fid => rfl,
    rfl, rfl⟩
  intro srcId info key vid vinfo hsrc hfield hv hco
  have hpg : proxyGet st srcId key = makeObservable st (JVal.obj vid) := by
    simp [proxyGet, hsrc, hfield, typeofObject]
  rw [hpg]
  exact isObservable_of_makeObservable st vid vinfo hWF hv hco

/-- Concrete well-formed state with a record at id 0 whose field `x`
holds the record at id 1, used to witness the classification
theorem. -/
def recState2 : ObsState :=
  { heap := fun i =>
      if i = 0 then
        some ⟨Ctor.object, none,
          fun k => if k = "x" then JVal.obj 1 else JVal.null⟩
      else if i = 1 then some ⟨Ctor.object, none, fun _ => JVal.null⟩
      else none,
    observables := fun _ => none,
    nextId := 2 }

lemma recState2_WF : WFobs recState2 := by
  constructor
  · intro i hi
    simp only [recState2] at hi ⊢
    have h0 : i ≠ 0 := by omega
    have h1 : i ≠ 1 := by omega
    simp [h0, h1]
  · intro s w h
    simp [recState2] at h

theorem isObservable_classification_witness :
    isObservable (proxyGet recState2 0 "x").1 (proxyGet recState2 0 "x").2 =
      Except.ok true ∧
    isObservable recState2 (JVal.num 7) = Except.ok false ∧
    isObservable recState2 JVal.null =
      Except.error "TypeError: cannot read properties of null" :=
  ⟨(isObservable_classification recState2 recState2_WF).1 0
      ⟨Ctor.object, none, fun k => if k = "x" then JVal.obj 1 else JVal.null⟩
      "x" 1 ⟨Ctor.object, none, fun _ => JVal.null⟩ rfl (by simp) rfl
      (Or.inl rfl),
   (isObservable_classification recState2 recState2_WF).2.1 7,
   (isObservable_classification recState2 recState2_WF).2.2.2.2.2.1⟩

/-- C8 counterexample: the claim as stated says `isObservable` returns
`false` on every primitive including `null`, but calling it on `null`
throws a TypeError (line 420 reads `obj[this.$isObservableSymbol]` on
the argument), so it does not return `false`. -/
theorem isObservable_null_counterexample :
    isObservable recState JVal.null ≠ Except.ok false ∧
    isObservable recState JVal.null =
      Except.error "TypeError: cannot read properties of null" := by
  constructor
  · intro h
    simp [isObservable] at h
  · rfl

/-!
## Model 2: one computed property over one observed record

Embeds the updatable machinery of `makeUpdatable` (active-data.js
lines 289-365) together with `makeComputed` (lines 374-380), the
accessor branch of the `get` trap (lines 229-236), `registerRead`
(lines 88-168, non-prototype form: every read subscribes the running
updatable under the key read), `updateProperty` (lines 170-213),
`invalidateDeps` (lines 66-77), and the `set` and `deleteProperty`
traps (lines 262-275).

The machine observes one record holding `Int`-valued keys (a key
mapped to `none` is absent, read as `undefined`) and owns one
updatable: the memo installed by `computed(d, k, fn)`.  `fn` is an
arbitrary straight-line program of reads and writes against the
record through the wrapper.  `readKeys` is the set of keys whose
subscription lists contain the updatable (`toUpdate`, lines 65 and
105-126); the per-run `uninit` sweep (lines 337-338) is modelled by
replacing `readKeys` wholesale on each execution.  `schedCount`
counts the scheduler requests issued at the end of `updateProperty`
(lines 205-212).  The updatable has no consumers, so the `deps`
propagation of `invalidateDeps` is vacuous here.
-/

/-- Default `options.watchKey` (line 21). -/
def watchKey : String := "$$watch"

/-- User function bodies: straight-line programs of reads and writes
performed through the wrapper, returning an `Int`. -/
inductive Prog where
  | ret (v : Int)
  | read (k : String) (cont : Option Int → Prog)
  | write (k : String) (v : Int) (rest : Prog)

/-- Outcome of one execution of the user function: the returned
value, the record data after the run's writes, the keys registered by
`registerRead` in read order, whether a write during the run
invalidated the running updatable itself (`invalidIteration`, lines
67-68 and 349-352), and how many scheduler requests the run's writes
issued. -/
structure RunResult where
  value : Int
  dat : String → Option Int
  reads : List String
  selfInv : Bool
  scheds : Nat

/-- Execution of the user function under the proxy traps.  A read
appends its key to the run's subscriptions (`registerRead`, lines
242-247 and 109).  A write applies the `set` trap (lines 262-271):
when the value is referentially unequal to the stored one, or the
source is a sequence and the key is `"length"`, the value is stored
and `updateProperty` runs — invalidating the running updatable when
it is subscribed to the written key or to `watchKey` (lines 171-203),
and issuing one scheduler request. -/
def runFn (a : Bool) : Prog → (String → Option Int) → List String →
    Bool → Nat → RunResult
  | .ret v, d, ks, inv, sc => ⟨v, d, ks, inv, sc⟩
  | .read k cont, d, ks, inv, sc => runFn a (cont (d k)) d (ks ++ [k]) inv sc
  | .write k v rest, d, ks, inv, sc =>
    if some v ≠ d k ∨ (a = true ∧ k = "length") then
      runFn a rest (fun k2 => if k2 = k then some v else d k2) ks
        (inv || decide (k ∈ ks ∨ watchKey ∈ ks)) (sc + 1)
    else
      runFn a rest d ks inv sc

/-- State of the observed record and its computed property: the
record data, whether the source is a sequence (`Array.isArray`, line
265), and the fields of the memo's `updatableState` (lines 311-317)
that the claims concern, plus the two counters. -/
structure CompState where
  dat : String → Option Int
  isArr : Bool
  valid : Bool
  value : Option Int
  readKeys : List String
  execCount : Nat
  schedCount : Nat

/-- Fresh machine: `updatableState` starts invalid with `undefined`
value and no subscriptions (lines 311-317), and the function has
never executed. -/
def CompState.init (d0 : String → Option Int) (a : Bool) : CompState :=
  ⟨d0, a, false, none, [], 0, 0⟩

/-- Translation of `updateProperty(obj, key)` (lines 170-213) as it acts on this
machine: for each of the written key and `watchKey`, invalidate the
updatable when it sits in that subscription list, then (outside a run
section) request a scheduler pass (lines 205-212). -/
def updatePropertyStep (k : String) (s : CompState) : CompState :=
  { s with
    valid := if k ∈ s.readKeys ∨ watchKey ∈ s.readKeys then false else s.valid,
    schedCount := s.schedCount + 1 }

/-- The `set` trap (lines 262-271): skip entirely when the new value
is referentially equal to the stored one, unless the source is a
sequence and the key is `"length"`; otherwise store and run
`updateProperty`. -/
def setStep (k : String) (v : Int) (s : CompState) : CompState :=
  if some v ≠ s.dat k ∨ (s.isArr = true ∧ k = "length") then
    updatePropertyStep k
      { s with dat := fun k2 => if k2 = k then some v else s.dat k2 }
  else s

/-- The `deleteProperty` trap (lines 272-275): run `updateProperty`
and report success; the underlying record is never touched. -/
def deleteProperty (k : String) (s : CompState) : CompState × Bool :=
  (updatePropertyStep k s, true)

/-- Demanding `d[k]`: the `get` trap finds the own accessor installed
by `makeComputed` and calls the interned updatable (lines 229-236).
The updatable (lines 318-360) returns the cached value when valid;
otherwise it clears its old subscriptions (`uninit`, lines 337-338),
executes the function, stores the result, and sets `valid` to the
negation of `invalidIteration` (line 352). -/
def demand (fn : Prog) (s : CompState) : CompState × Option Int :=
  if s.valid then (s, s.value)
  else
    let r := runFn s.isArr fn s.dat [] false 0
    ({ s with dat := r.dat, valid := !r.selfInv, value := some r.value,
              readKeys := r.reads, execCount := s.execCount + 1,
              schedCount := s.schedCount + r.scheds },
     some r.value)

/-- External operations driving the machine: a demand of the computed
key, or a write to a record key through the wrapper. -/
inductive TOp where
  | demandOp
  | writeOp (k : String) (v : Int)
deriving DecidableEq

/-- One external operation applied to the machine. -/
def stepOp (fn : Prog) (s : CompState) : TOp → CompState
  | .demandOp => (demand fn s).1
  | .writeOp k v => setStep k v s

/-- A whole trace of external operations applied in order. -/
def processTrace (fn : Prog) (ops : List TOp) (s : CompState) : CompState :=
  ops.foldl (stepOp fn) s

/-!
Specification-side bookkeeping for claim C1: instead of the machine's
`valid` flag, the ghost tracks whether the function has ever run and
whether the memo was invalidated since its last execution — an
invalidation being an effective write to a key the last execution
read (directly or via `watchKey`), by an external writer or by the
function itself.  The memo is demanded-as-stale exactly when it never
ran or was invalidated since; `count` counts those demands, i.e. the
executions of the user function the claim predicts.
-/

/-- Ghost state for the memoization claim. -/
structure MemoGhost where
  dat : String → Option Int
  isArr : Bool
  lastReads : List String
  ranBefore : Bool
  invalidatedSinceLastRun : Bool
  count : Nat

/-- Fresh ghost: the function never ran. -/
def MemoGhost.init (d0 : String → Option Int) (a : Bool) : MemoGhost :=
  ⟨d0, a, [], false, false, 0⟩

/-- The memo is stale: either the function never ran, or a relevant
write happened since its last execution. -/
def ghostStale (g : MemoGhost) : Bool :=
  !g.ranBefore || g.invalidatedSinceLastRun

/-- Ghost transition: a demand on a stale memo executes the function
(counted) and resets the invalidation marker to whether the run
invalidated itself; a demand on a fresh memo does nothing; an
effective write marks the memo invalidated when it hits a key the
last execution read. -/
def ghostStep (fn : Prog) (g : MemoGhost) : TOp → MemoGhost
  | .demandOp =>
    if ghostStale g then
      let r := runFn g.isArr fn g.dat [] false 0
      { g with dat := r.dat, lastReads := r.reads, ranBefore := true,
               invalidatedSinceLastRun := r.selfInv, count := g.count + 1 }
    else g
  | .writeOp k v =>
    if some v ≠ g.dat k ∨ (g.isArr = true ∧ k = "length") then
      { g with dat := fun k2 => if k2 = k then some v else g.dat k2,
               invalidatedSinceLastRun := g.invalidatedSinceLastRun ||
                 decide (k ∈ g.lastReads ∨ watchKey ∈ g.lastReads) }
    else g

/-- Ghost run over a whole trace. -/
def ghostTrace (fn : Prog) (ops : List TOp) (g : MemoGhost) : MemoGhost :=
  ops.foldl (ghostStep fn) g

/-- Correspondence between the machine and the ghost: same data, same
subscriptions, same execution count, and the memo is valid exactly
when it ran before and was not invalidated since. -/
def MemoRel (s : CompState) (g : MemoGhost) : Prop :=
  s.dat = g.dat ∧ s.isArr = g.isArr ∧ s.readKeys = g.lastReads ∧
  s.execCount = g.count ∧ s.valid = (g.ranBefore && !g.invalidatedSinceLastRun)

lemma memoRel_init (d0 : String → Option Int) (a : Bool) :
    MemoRel (CompState.init d0 a) (MemoGhost.init d0 a) := by
  refine ⟨rfl, rfl, rfl, rfl, rfl⟩

lemma memoRel_step (fn : Prog) (s : CompState) (g : MemoGhost) (op : TOp)
    (h : MemoRel s g) : MemoRel (stepOp fn s op) (ghostStep fn g op) := by
  obtain ⟨hd, ha, hr, hc, hv⟩ := h
  cases op with
  | demandOp =>
    have hstale : ghostStale g = !s.valid := by
      rw [hv]; simp [ghostStale]
    by_cases hgv : s.valid = true
    · have : ghostStale g = false := by rw [hstale, hgv]; rfl
      simp [stepOp, ghostStep, demand, hgv, this]
      exact ⟨hd, ha, hr, hc, hv⟩
    · have hgv2 : s.valid = false := by
        cases hvv : s.valid
        · rfl
        · exact absurd hvv hgv
      have : ghostStale g = true := by rw [hstale, hgv2]; rfl
      simp only [stepOp, ghostStep, demand, hgv2, this, if_false, if_true,
        Bool.false_eq_true]
      rw [hd, ha, hc]
      exact ⟨rfl, rfl, rfl, rfl, by simp⟩
  | writeOp k v =>
    by_cases heff : some v ≠ s.dat k ∨ (s.isArr = true ∧ k = "length")
    · have heff2 : some v ≠ g.dat k ∨ (g.isArr = true ∧ k = "length") := by
        rw [← hd, ← ha]; exact heff
      simp only [stepOp, setStep, ghostStep, updatePropertyStep, heff, heff2,
        if_true]
      refine ⟨by rw [hd], ha, hr, hc, ?_⟩
      by_cases hsub : k ∈ s.readKeys ∨ watchKey ∈ s.readKeys
      · have hsub2 : k ∈ g.lastReads ∨ watchKey ∈ g.lastReads := by
          rw [← hr]; exact hsub
        simp [hsub, hsub2]
      · have hsub2 : ¬ (k ∈ g.lastReads ∨ watchKey ∈ g.lastReads) := by
          rw [← hr]; exact hsub
        simp [hsub, hsub2, hv]
    · have heff2 : ¬ (some v ≠ g.dat k ∨ (g.isArr = true ∧ k = "length")) := by
        rw [← hd, ← ha]; exact heff
      simp only [stepOp, setStep, ghostStep, heff, heff2, if_false]
      exact ⟨hd, ha, hr, hc, hv⟩

lemma memoRel_trace (fn : Prog) (ops : List TOp) :
    ∀ (s : CompState) (g : MemoGhost), MemoRel s g →
      MemoRel (processTrace fn ops s) (ghostTrace fn ops g) := by
  induction ops with
  | nil => intro s g h; exact h
  | cons op rest ih =>
    intro s g h
    exact ih (stepOp fn s op) (ghostStep fn g op) (memoRel_step fn s g op h)

lemma processTrace_no_demand (fn : Prog) (ops : List TOp) :
    ∀ s : CompState, (∀ op ∈ ops, op ≠ TOp.demandOp) →
      (processTrace fn ops s).execCount = s.execCount := by
  induction ops with
  | nil => intro s _; rfl
  | cons op rest ih =>
    intro s h
    have hop := h op (by simp)
    have hrest : ∀ op2 ∈ rest, op2 ≠ TOp.demandOp := by
      intro op2 hmem; exact h op2 (by simp [hmem])
    cases op with
    | demandOp => exact absurd rfl hop
    | writeOp k v =>
      have hstep : (stepOp fn s (TOp.writeOp k v)).execCount = s.execCount := by
        simp only [stepOp, setStep, updatePropertyStep]
        by_cases heff : some v ≠ s.dat k ∨ (s.isArr = true ∧ k = "length") <;>
          simp [heff]
      calc (processTrace fn (TOp.writeOp k v :: rest) s).execCount
          = (processTrace fn rest (stepOp fn s (TOp.writeOp k v))).execCount :=
            rfl
        _ = (stepOp fn s (TOp.writeOp k v)).execCount := ih _ hrest
        _ = s.execCount := hstep

/-- C1: lazy memoization of computed properties.  Over any trace of
demands and writes after `computed(d, k, fn)`, the number of times
the user function executed equals the ghost count of demands issued
while the memo was stale — never ran yet, or invalidated since its
last execution by an effective write to a key that execution read;
with no demand in the trace the function never runs; and a demand
while the memo is valid returns the cached value with the state
untouched. -/
theorem computed_lazy_memoization (fn : Prog) (ops : List TOp)
    (d0 : String → Option Int) (a : Bool) :
    (processTrace fn ops (CompState.init d0 a)).execCount =
      (ghostTrace fn ops (MemoGhost.init d0 a)).count ∧
    ((∀ op ∈ ops, op ≠ TOp.demandOp) →
      (processTrace fn ops (CompState.init d0 a)).execCount = 0) ∧
    (∀ s : CompState, s.valid = true → demand fn s = (s, s.value)) := by
  refine ⟨(memoRel_trace fn ops _ _ (memoRel_init d0 a)).2.2.2.1, ?_, ?_⟩
  · intro h
    exact processTrace_no_demand fn ops (CompState.init d0 a) h
  · intro s hs
    simp [demand, hs]

/-- Concrete user function reading key `a`, used in witnesses. -/
def fnReadA : Prog := Prog.read "a" (fun _ => Prog.ret 7)

/-- Concrete record data mapping every key to 0, used in witnesses. -/
def datZero : String → Option Int := fun _ => some 0

/-- Concrete valid machine state, used in witnesses. -/
def compValid : CompState := ⟨datZero, false, true, some 7, ["a"], 1, 0⟩

theorem computed_lazy_memoization_witness :
    (processTrace fnReadA [TOp.demandOp, TOp.writeOp "a" 5, TOp.demandOp]
        (CompState.init datZero false)).execCount =
      (ghostTrace fnReadA [TOp.demandOp, TOp.writeOp "a" 5, TOp.demandOp]
        (MemoGhost.init datZero false)).count ∧
    (processTrace fnReadA [TOp.writeOp "a" 5] (CompState.init datZero
      false)).execCount = 0 ∧
    demand fnReadA compValid = (compValid, compValid.value) :=
  ⟨(computed_lazy_memoization fnReadA
      [TOp.demandOp, TOp.writeOp "a" 5, TOp.demandOp] datZero false).1,
   (computed_lazy_memoization fnReadA [TOp.writeOp "a" 5] datZero false).2.1
     (by intro op hop; simp at hop; simp [hop]),
   (computed_lazy_memoization fnReadA [] datZero false).2.2 compValid rfl⟩

/-- C3: a `set` through the wrapper whose new value is referentially
equal to the stored one is a complete no-op — nothing is stored, no
invalidation happens, no scheduler pass is requested — unless the
source is a sequence and the key is `"length"`, in which case the
write proceeds: the value is stored, subscribers of the key or of
`watchKey` are invalidated, and a scheduler pass is requested (set
trap, lines 262-271). -/
theorem set_refEqual_noop (s : CompState) (k : String) (v : Int) :
    (some v = s.dat k → ¬ (s.isArr = true ∧ k = "length") →
      setStep k v s = s) ∧
    (s.isArr = true →
      (setStep "length" v s).schedCount = s.schedCount + 1 ∧
      (("length" ∈ s.readKeys ∨ watchKey ∈ s.readKeys) →
        (setStep "length" v s).valid = false) ∧
      (setStep "length" v s).dat "length" = some v) := by
  constructor
  · intro heq hnarr
    have hcond : ¬ (some v ≠ s.dat k ∨ (s.isArr = true ∧ k = "length")) := by
      push_neg
      exact ⟨heq, fun ha hk => hnarr ⟨ha, hk⟩⟩
    simp [setStep, hcond]
  · intro harr
    have hcond : some v ≠ s.dat "length" ∨ (s.isArr = true ∧
        "length" = "length") := Or.inr ⟨harr, rfl⟩
    have hstep : setStep "length" v s = updatePropertyStep "length"
        { s with dat := fun k2 =>
            if k2 = "length" then some v else s.dat k2 } := by
      unfold setStep
      rw [if_pos hcond]
    rw [hstep]
    refine ⟨by simp [updatePropertyStep], ?_, by simp [updatePropertyStep]⟩
    intro hsub
    simp [updatePropertyStep, hsub]

/-- Concrete machine state subscribed to `length` on a sequence, used
in witnesses. -/
def compSeq : CompState :=
  ⟨fun k => if k = "length" then some 3 else some 0, true, true, some 3,
    ["length"], 1, 0⟩

theorem set_refEqual_noop_witness :
    setStep "a" 0 compSeq = compSeq ∧
    (setStep "length" 3 compSeq).schedCount = compSeq.schedCount + 1 ∧
    (setStep "length" 3 compSeq).valid = false ∧
    (setStep "length" 3 compSeq).dat "length" = some 3 :=
  ⟨(set_refEqual_noop compSeq "a" 0).1 (by simp [compSeq]) (by simp),
   ((set_refEqual_noop compSeq "length" 3).2 rfl).1,
   ((set_refEqual_noop compSeq "length" 3).2 rfl).2.1
     (by simp [compSeq, watchKey]),
   ((set_refEqual_noop compSeq "length" 3).2 rfl).2.2⟩

/-- C7: writes through a wrapper during a derivation are permitted —
the `set` trap (lines 262-271) has no call-stack guard, so the value
is stored and no exception is raised — and on completion the
updatable's `valid` is assigned the negation of `invalidIteration`
(line 352), so an updatable whose own run invalidated it finishes
invalid and the next demand recomputes it. -/
theorem writes_during_derivation (fn : Prog) (s : CompState)
    (h : s.valid = false) :
    (demand fn s).1.dat = (runFn s.isArr fn s.dat [] false 0).dat ∧
    (demand fn s).2 = some (runFn s.isArr fn s.dat [] false 0).value ∧
    (demand fn s).1.valid = !(runFn s.isArr fn s.dat [] false 0).selfInv ∧
    ((runFn s.isArr fn s.dat [] false 0).selfInv = true →
      (demand fn (demand fn s).1).1.execCount = s.execCount + 2) := by
  refine ⟨by simp [demand, h], by simp [demand, h], by simp [demand, h], ?_⟩
  intro hself
  have h2 : (demand fn s).1.valid = false := by simp [demand, h, hself]
  have h1 : (demand fn s).1.execCount = s.execCount + 1 := by
    simp [demand, h]
  set s1 := (demand fn s).1 with hs1
  have h3 : (demand fn s1).1.execCount = s1.execCount + 1 := by
    simp [demand, h2]
  rw [h3, h1]

/-- Concrete self-invalidating user function: it writes a key it has
already read in the same run. -/
def fnSelfWrite : Prog :=
  Prog.read "a" (fun _ => Prog.write "a" 5 (Prog.ret 1))

theorem writes_during_derivation_witness :
    (demand fnSelfWrite (CompState.init datZero false)).1.dat =
      (runFn false fnSelfWrite datZero [] false 0).dat ∧
    (demand fnSelfWrite (CompState.init datZero false)).2 =
      some (runFn false fnSelfWrite datZero [] false 0).value ∧
    (demand fnSelfWrite (CompState.init datZero false)).1.valid =
      !(runFn false fnSelfWrite datZero [] false 0).selfInv ∧
    ((runFn false fnSelfWrite datZero [] false 0).selfInv = true →
      (demand fnSelfWrite
        (demand fnSelfWrite (CompState.init datZero false)).1).1.execCount =
          (CompState.init datZero false).execCount + 2) :=
  writes_during_derivation fnSelfWrite (CompState.init datZero false) rfl

/-- C10: the `deleteProperty` trap (lines 272-275) invalidates the
subscribers of the deleted key and of `watchKey` via
`updateProperty`, requests a scheduler pass, and reports success, yet
never removes the key from the underlying source: the record data is
untouched, so the source still owns the key with its previous
value. -/
theorem deleteProperty_keeps_source (s : CompState) (k : String) :
    (deleteProperty k s).2 = true ∧
    (deleteProperty k s).1.dat = s.dat ∧
    ((k ∈ s.readKeys ∨ watchKey ∈ s.readKeys) →
      (deleteProperty k s).1.valid = false) ∧
    (deleteProperty k s).1.schedCount = s.schedCount + 1 := by
  refine ⟨rfl, rfl, ?_, rfl⟩
  intro hsub
  simp [deleteProperty, updatePropertyStep, hsub]

theorem deleteProperty_keeps_source_witness :
    (deleteProperty "length" compSeq).2 = true ∧
    (deleteProperty "length" compSeq).1.dat = compSeq.dat ∧
    (deleteProperty "length" compSeq).1.valid = false ∧
    (deleteProperty "length" compSeq).1.schedCount =
      compSeq.schedCount + 1 :=
  ⟨(deleteProperty_keeps_source compSeq "length").1,
   (deleteProperty_keeps_source compSeq "length").2.1,
   (deleteProperty_keeps_source compSeq "length").2.2.1
     (by simp [compSeq, watchKey]),
   (deleteProperty_keeps_source compSeq "length").2.2.2⟩

/-!
## Model 3: the reaction scheduler

Embeds `makeReaction` registrations (active-data.js lines 397-412),
the `run` fixed-point loop (lines 430-457), the drain of
`reactionsToUpdate` (lines 447-450), and the interaction of reaction
bodies with the traps.  The machine's updatables are exactly the
registered reactions, identified by ids listed in the configuration;
each holds its subscription list (`toUpdate` entries pointing at it)
and its validity.  `invalidateDeps` (lines 66-77) on a reaction sets
the manager-wide `valid` flag to false, marks `invalidIteration` for
the running reaction, fires the reaction's `onInvalidate` hook — which
re-adds it to `reactionsToUpdate` (line 400) — and clears its
validity.  Reactions are invoked by `run` with an empty call stack,
so the `deps` consumer edges (lines 326-331) stay empty and are
omitted.  The `run(action)` batch argument, the `runScheduled` timer
token and the `onAfterRun` hook play no part in the claim and are
omitted. -/

/-- The constant `maxIterations` (line 1). -/
def maxIterations : Nat := 10

/-- Scheduler configuration: the registered reaction ids and the user
function of each. -/
structure SchedCfg where
  reactions : List Nat
  progs : Nat → Prog

/-- Scheduler state: the observed record, per-reaction subscription
lists and validity, the pending set `reactionsToUpdate` (insertion
order), the manager-wide `valid` flag, `inRunSection`, and
`options.enabled`. -/
structure SchedState where
  dat : String → Option Int
  isArr : Bool
  subs : Nat → List String
  validOf : Nat → Bool
  pending : List Nat
  mvalid : Bool
  inRunSection : Bool
  enabled : Bool

/-- Adding to the `reactionsToUpdate` set: JavaScript `Set.add` keeps
insertion order and ignores a member already present. -/
def addPending (p : List Nat) (r : Nat) : List Nat :=
  if r ∈ p then p else p ++ [r]

/-- Whether a write to key `k` reaches reaction `r` through the
subscription lists of `k` or of `watchKey` (`updateProperty`, lines
171-203). -/
def invalidatedBy (s : SchedState) (k : String) (r : Nat) : Bool :=
  decide (k ∈ s.subs r ∨ watchKey ∈ s.subs r)

/-- Execution of a reaction body `rid` under the traps.  A read
registers `rid` under the key read.  An effective write stores the
value and runs `updateProperty`: every subscribed reaction is
invalidated (`invalidateDeps`) — the manager `valid` flag drops, the
reaction's validity drops, its `onInvalidate` re-enqueues it — and
the running reaction records `invalidIteration` when the write
reached itself.  `inRunSection` is true throughout, so
`updateProperty` does not start a nested pass (lines 205-212). -/
def reactRun (cfg : SchedCfg) (rid : Nat) :
    Prog → SchedState → Bool → SchedState × Bool
  | .ret _, s, inv => (s, inv)
  | .read k cont, s, inv =>
    let s2 := { s with
      subs := fun r => if r = rid then s.subs rid ++ [k] else s.subs r }
    reactRun cfg rid (cont (s.dat k)) s2 inv
  | .write k v rest, s, inv =>
    if some v ≠ s.dat k ∨ (s.isArr = true ∧ k = "length") then
      let s2 := { s with
        dat := fun k2 => if k2 = k then some v else s.dat k2 }
      let s3 := { s2 with
        mvalid := if cfg.reactions.any (invalidatedBy s2 k) then false
                  else s2.mvalid,
        validOf := fun r =>
          if r ∈ cfg.reactions ∧ invalidatedBy s2 k r = true then false
          else s2.validOf r,
        pending := cfg.reactions.foldl
          (fun p r => if invalidatedBy s2 k r then addPending p r else p)
          s2.pending }
      reactRun cfg rid rest s3 (inv || invalidatedBy s2 k rid)
    else
      reactRun cfg rid rest s inv

/-- One invocation of a reaction's updatable (lines 318-360) from the
drain: return at once when valid; otherwise clear its subscriptions
(`uninit`), execute the body, and set its validity to the negation of
`invalidIteration` (line 352). -/
def invoke (cfg : SchedCfg) (rid : Nat) (s : SchedState) : SchedState :=
  if s.validOf rid then s
  else
    let s1 := { s with subs := fun r => if r = rid then [] else s.subs r }
    let res := reactRun cfg rid (cfg.progs rid) s1 false
    { res.1 with
      validOf := fun r => if r = rid then !res.2 else res.1.validOf r }

/-- One drain of `reactionsToUpdate` (lines 447-450): snapshot the
set, and for each member delete it from the live set then invoke
it. -/
def drain (cfg : SchedCfg) (s : SchedState) : SchedState :=
  s.pending.foldl
    (fun s2 r => invoke cfg r { s2 with pending := s2.pending.erase r }) s

/-- The fixed-point loop of `run` (lines 440-451): while the manager
`valid` flag is down, raise it, fail once the iteration counter
exceeds `maxIterations`, otherwise drain and repeat. -/
def runLoop (cfg : SchedCfg) (s : SchedState) (iterations : Nat) :
    SchedState × Option String :=
  if s.mvalid then (s, none)
  else
    let s1 := { s with mvalid := true }
    if _h : iterations > maxIterations then
      (s1, some "Max iterations exceeded!")
    else
      runLoop cfg (drain cfg s1) (iterations + 1)
termination_by maxIterations + 1 - iterations
decreasing_by simp_wf; omega

/-- Translation of `run()` (lines 430-457) with no batch action: no-op when the
manager is disabled; otherwise raise `inRunSection`, run the loop,
and clear `inRunSection` on every exit path (the `finally`, lines
454-456). -/
def run (cfg : SchedCfg) (s : SchedState) : SchedState × Option String :=
  if s.enabled = false then (s, none)
  else
    let s1 := { s with inRunSection := true }
    let res := runLoop cfg s1 0
    ({ res.1 with inRunSection := false }, res.2)

/-- Reaction body that writes a strictly different value to a key it
has just read: the self-looping reaction of claim C4. -/
def selfLoopProg : Prog :=
  Prog.read "a" (fun x =>
    Prog.write "a" (match x with | some n => n + 1 | none => 0)
      (Prog.ret 0))

/-- Scheduler with the single self-looping reaction registered. -/
def selfLoopCfg : SchedCfg := ⟨[0], fun _ => selfLoopProg⟩

/-- Loop invariant for the self-looping reaction: the manager is
invalid, the reaction is pending and its memo is invalid. -/
def SelfLoopInv (s : SchedState) : Prop :=
  s.mvalid = false ∧ s.pending = [0] ∧ s.validOf 0 = false

lemma selfLoop_drain (s : SchedState) (hp : s.pending = [0])
    (hv : s.validOf 0 = false) :
    SelfLoopInv (drain selfLoopCfg { s with mvalid := true }) := by
  cases hdat : s.dat "a" with
  | none =>
    simp [drain, hp, invoke, hv, reactRun, selfLoopCfg, selfLoopProg,
      invalidatedBy, addPending, watchKey, SelfLoopInv, hdat]
  | some n =>
    have heff : ¬ some (n + 1) = s.dat "a" := by
      rw [hdat]
      intro hcontra
      have := Option.some.inj hcontra
      omega
    simp [drain, hp, invoke, hv, reactRun, selfLoopCfg, selfLoopProg,
      invalidatedBy, addPending, watchKey, SelfLoopInv, hdat, heff]

lemma runLoop_selfLoop_error (d : Nat) : ∀ (it : Nat) (s : SchedState),
    maxIterations + 1 - it ≤ d → SelfLoopInv s →
    (runLoop selfLoopCfg s it).2 = some "Max iterations exceeded!" := by
  induction d with
  | zero =>
    intro it s hd hinv
    rw [runLoop]
    have hit : it > maxIterations := by omega
    simp [hinv.1, hit]
  | succ d ih =>
    intro it s hd hinv
    rw [runLoop]
    by_cases hit : it > maxIterations
    · simp [hinv.1, hit]
    · simp only [hinv.1, Bool.false_eq_true, if_false, hit, dif_neg,
        not_false_eq_true]
      exact ih (it + 1) (drain selfLoopCfg { s with mvalid := true })
        (by omega) (selfLoop_drain s hinv.2.1 hinv.2.2)

/-- C4: a registered reaction that writes a value it also reads makes
every pass re-invalidate the manager, so `run()` exits with the
iteration-limit error (`Max iterations exceeded!`, line 444, with
`maxIterations = 10`, line 1), and the `finally` clears
`inRunSection` on this exit path. -/
theorem run_selfLoop_iterationLimit (s : SchedState)
    (hen : s.enabled = true) (hm : s.mvalid = false)
    (hp : s.pending = [0]) (hv : s.validOf 0 = false) :
    (run selfLoopCfg s).2 = some "Max iterations exceeded!" ∧
    (run selfLoopCfg s).1.inRunSection = false ∧
    maxIterations = 10 := by
  have hen2 : ¬ s.enabled = false := by rw [hen]; simp
  refine ⟨?_, by simp [run, hen2], rfl⟩
  unfold run
  rw [if_neg hen2]
  exact runLoop_selfLoop_error (maxIterations + 1) 0
    { s with inRunSection := true } (by omega) ⟨hm, hp, hv⟩

/-- Concrete initial scheduler state with the self-looping reaction
pending, used in the witness. -/
def schedInit : SchedState :=
  ⟨fun _ => some 0, false, fun _ => [], fun _ => false, [0], false,
    false, true⟩

theorem run_selfLoop_iterationLimit_witness :
    (run selfLoopCfg schedInit).2 = some "Max iterations exceeded!" ∧
    (run selfLoopCfg schedInit).1.inRunSection = false ∧
    maxIterations = 10 :=
  run_selfLoop_iterationLimit schedInit rfl rfl rfl rfl

/-!
## Model 4: cross-referencing computed properties

Embeds the reentrancy guard of `makeUpdatable` (active-data.js lines
318-325) for two interned updatables A and B whose bodies may demand
each other.  Demand depth is bounded by a fuel parameter; every claim
is proved at adequate fuel, so the fuel-exhausted branch is never
reached in the statements.  The updatables' bodies perform no writes,
so `invalidIteration` stays false and line 352 sets `valid` to true
after a completed run; the `deps` consumer edge recorded at lines
326-331 drives only invalidation and is omitted here. -/

/-- Exact diagnostic emitted at lines 320-323. -/
def crossRefMsg : String :=
  "Detected cross reference inside computed properties! \"undefined\" will be returned to prevent infinite loop"

/-- Body of an updatable in this model: return a value (possibly
`undefined`), or demand the other updatable and continue with its
result. -/
inductive XProg where
  | retv (v : Option Int)
  | demandOther (cont : Option Int → XProg)

/-- State of the two updatables (indexed by a Bool: `true` is A) and
the warning sink fed by `console.warn`. -/
structure XState where
  computing : Bool → Bool
  valid : Bool → Bool
  value : Bool → Option Int
  warnings : List String

/-- Fresh pair of updatables: nothing computing, nothing valid. -/
def XState.init : XState :=
  ⟨fun _ => false, fun _ => false, fun _ => none, []⟩

/-- Runs an updatable body, performing each inner demand through the
supplied demand function. -/
def runX (demandFn : XState → XState × Option Int) :
    XProg → XState → XState × Option Int
  | .retv v, s => (s, v)
  | .demandOther cont, s =>
    let res := demandFn s
    runX demandFn (cont res.2) res.1

/-- Demand of updatable `who` (lines 318-360): when its `computing`
flag is already set, emit the cross-reference diagnostic and return
`undefined` before touching anything else (lines 319-325); when
valid, return the cached value (lines 333-335); otherwise set
`computing`, run the body with inner demands directed at the other
updatable, store the result, mark valid, and clear `computing` (the
`finally`, lines 356-359). -/
def demandX (envA envB : XProg) : Nat → Bool → XState → XState × Option Int
  | 0, _, s => (s, none)
  | fuel + 1, who, s =>
    if s.computing who then
      ({ s with warnings := s.warnings ++ [crossRefMsg] }, none)
    else if s.valid who then (s, s.value who)
    else
      let s1 := { s with
        computing := fun w => if w = who then true else s.computing w }
      let res := runX (fun st => demandX envA envB fuel (!who) st)
        (if who then envA else envB) s1
      ({ res.1 with
          computing := fun w => if w = who then false else res.1.computing w,
          valid := fun w => if w = who then true else res.1.valid w,
          value := fun w => if w = who then res.2 else res.1.value w },
       res.2)

/-- Body that demands the other updatable and returns its value: the
cross-referencing computed of claim C5. -/
def crossBody : XProg := XProg.demandOther (fun v => XProg.retv v)

/-- C5: demanding an updatable whose `computing` flag is set emits
exactly the diagnostic of lines 320-323 to the warning sink and
returns `undefined` without raising; in particular two computed
properties that demand each other complete with value `undefined` and
exactly one such diagnostic emitted. -/
theorem crossReference_returns_undefined :
    (∀ (fuel : Nat) (envA envB : XProg) (s : XState) (who : Bool),
      s.computing who = true →
      demandX envA envB (fuel + 1) who s =
        ({ s with warnings := s.warnings ++ [crossRefMsg] }, none)) ∧
    (demandX crossBody crossBody 3 true XState.init).2 = none ∧
    (demandX crossBody crossBody 3 true XState.init).1.warnings =
      [crossRefMsg] ∧
    crossRefMsg = "Detected cross reference inside computed properties! \"undefined\" will be returned to prevent infinite loop" := by
  refine ⟨?_, ?_, ?_, rfl⟩
  · intro fuel envA envB s who h
    simp [demandX, h]
  · rfl
  · rfl

/-- Concrete state with both updatables computing, used in the
witness. -/
def xComputing : XState :=
  ⟨fun _ => true, fun _ => false, fun _ => none, []⟩

theorem crossReference_returns_undefined_witness :
    demandX crossBody crossBody 1 true xComputing =
      ({ xComputing with warnings := xComputing.warnings ++ [crossRefMsg] },
        none) ∧
    (demandX crossBody crossBody 3 true XState.init).2 = none :=
  ⟨crossReference_returns_undefined.1 0 crossBody crossBody xComputing true
     rfl,
   crossReference_returns_undefined.2.1⟩

/-!
## Model 5: prototype-chain registration and invalidation

Embeds the `prototypes: true` branch of `registerRead` (active-data.js
lines 127-164) and the prototype-vector check of `updateProperty`
(lines 181-199).

A read of key `K` on record `r` first registers the reader at `r`
itself as a root subscription (line 131), then walks `r`'s prototype
chain: every prototype is unshifted onto the vector (line 150), and
at each ancestor that the manager has wrapped, the reader is
registered with the vector built so far before the walk continues
from that ancestor (lines 151-163 delegating into the ancestor's own
`registerRead`).  The chain is presented bottom-up as the list of
`r`'s strict prototypes, ending before `Object.prototype`.

On a later write to key `K` on ancestor `a`, `updateProperty` scans
each recorded vector from just above the position of `a` (line 185,
`indexOf(obj) + 1`, which is 0 when `obj` is absent) and invalidates
along the vector only when no record strictly closer to the reader
owns `K` (lines 186-195); root registrations invalidate outright
(lines 178-180); several vectors are combined with `some` (line
184). -/

/-- The prototype walk of `registerRead` (lines 147-163): consume the
chain bottom-up, unshifting each prototype onto the vector, and
record a registration at every wrapped ancestor. -/
def walkRegister (wrapped : Nat → Bool) :
    List Nat → List Nat → List (Nat × List Nat)
  | [], _ => []
  | p :: rest, vec =>
    let vec2 := p :: vec
    if wrapped p then (p, vec2) :: walkRegister wrapped rest vec2
    else walkRegister wrapped rest vec2

/-- All prototype registrations produced by one read at record `r`
with strict prototype chain `chain`: the walk starts with the vector
`[r]` (line 130). -/
def registrations (wrapped : Nat → Bool) (r : Nat) (chain : List Nat) :
    List (Nat × List Nat) :=
  walkRegister wrapped chain [r]

/-- Start of the shadowing scan (line 185): one past the position of
the written record in the vector, or 0 when it is absent
(`indexOf` yields -1). -/
def invalidateStart (vec : List Nat) (a : Nat) : Nat :=
  if a ∈ vec then vec.indexOf a + 1 else 0

/-- The per-vector check of lines 185-194: invalidate along the
vector when no record after the written one owns the key. -/
def vectorUnshadowed (ownKey : Nat → String → Bool) (key : String)
    (a : Nat) (vec : List Nat) : Bool :=
  (vec.drop (invalidateStart vec a)).all (fun q => !ownKey q key)

/-- The invalidation decision of `updateProperty` for one subscribed
updatable (lines 178-199): root subscriptions always invalidate;
prototype subscriptions invalidate when some recorded vector is
unshadowed. -/
def shouldInvalidate (ownKey : Nat → String → Bool) (key : String)
    (a : Nat) (isRoot : Bool) (vecs : List (List Nat)) : Bool :=
  if isRoot then true else vecs.any (vectorUnshadowed ownKey key a)

lemma walkRegister_mem (wrapped : Nat → Bool) (a : Nat) (post : List Nat)
    (ha : wrapped a = true) : ∀ (pre vec : List Nat),
    (a, a :: (pre.reverse ++ vec)) ∈
      walkRegister wrapped (pre ++ a :: post) vec := by
  intro pre
  induction pre with
  | nil =>
    intro vec
    simp [walkRegister, ha]
  | cons p ps ih =>
    intro vec
    have hrw : (p :: ps).reverse ++ vec = ps.reverse ++ (p :: vec) := by
      simp
    rw [hrw]
    simp only [List.cons_append, walkRegister]
    by_cases hp : wrapped p = true
    · simp only [hp, if_true]
      exact List.mem_cons_of_mem _ (ih (p :: vec))
    · simp only [hp, if_false]
      exact ih (p :: vec)

/-- C6: with `prototypes: true`, a reader of key `K` at record `r`
whose strict prototype chain passes through the wrapped ancestor `a`
is registered at `a` with the vector `a :: closer ++ [r]`, where
`closer` lists the chain records below `a` from closest-to-`a`
downward; and a write to `K` on `a` invalidates along that vector
exactly when no record strictly closer to the reader — a chain record
below `a`, or `r` itself — owns `K`.  A reader shadowed by a closer
own-key override is therefore not invalidated. -/
theorem prototype_invalidation (wrapped : Nat → Bool)
    (ownKey : Nat → String → Bool) (r a : Nat) (pre post : List Nat)
    (K : String) (ha : wrapped a = true) :
    (a, a :: (pre.reverse ++ [r])) ∈
      registrations wrapped r (pre ++ a :: post) ∧
    (shouldInvalidate ownKey K a false [a :: (pre.reverse ++ [r])] = true ↔
      ∀ q ∈ pre.reverse ++ [r], ownKey q K = false) := by
  constructor
  · exact walkRegister_mem wrapped a post ha pre [r]
  · have hstart : invalidateStart (a :: (pre.reverse ++ [r])) a = 1 := by
      simp [invalidateStart, List.indexOf_cons_self]
    have hsi : shouldInvalidate ownKey K a false
        [a :: (pre.reverse ++ [r])] =
        (pre.reverse ++ [r]).all (fun q => !ownKey q K) := by
      simp [shouldInvalidate, vectorUnshadowed, hstart]
    rw [hsi, List.all_eq_true]
    simp [Bool.not_eq_true']

/-- Concrete chain for the prototype witness: reader 0, unwrapped
intermediate prototype 2, wrapped ancestor 1. -/
def wrappedW : Nat → Bool := fun n => n == 1

/-- Own-key table where no record owns anything. -/
def ownKeyNone : Nat → String → Bool := fun _ _ => false

/-- Own-key table where the reader record 0 owns every key,
shadowing its ancestors. -/
def ownKeyReader : Nat → String → Bool := fun n _ => n == 0

theorem prototype_invalidation_witness :
    (1, [1, 2, 0]) ∈ registrations wrappedW 0 [2, 1] ∧
    shouldInvalidate ownKeyNone "a" 1 false [[1, 2, 0]] = true ∧
    shouldInvalidate ownKeyReader "a" 1 false [[1, 2, 0]] = false :=
  ⟨(prototype_invalidation wrappedW ownKeyNone 0 1 [2] [] "a" rfl).1,
   (prototype_invalidation wrappedW ownKeyNone 0 1 [2] [] "a" rfl).2.mpr
     (by decide),
   by
     have h := (prototype_invalidation wrappedW ownKeyReader 0 1 [2] []
       "a" rfl).2
     cases hsi : shouldInvalidate ownKeyReader "a" 1 false [[1, 2, 0]]
     · rfl
     · have h0 := h.mp hsi 0 (by simp)
       simp [ownKeyReader] at h0⟩

/-!
## Model 6: the execution context of an updatable

Embeds the context selection of `makeUpdatable` (active-data.js lines
341-348): when the updatable is invoked with a truthy `this`, the
context is `manager.observables.get(this)` — which is `undefined`
when `this` was never wrapped — and when `this` is falsy (a plain
call in strict mode) the context is the Manager itself.  The body is
then executed as `fn.call(context, context)` (line 350). -/

/-- Possible execution contexts: an observable wrapper, the Manager
instance, or `undefined`. -/
inductive ContextVal where
  | wrapper (id : Nat)
  | manager
  | undefinedCtx
deriving DecidableEq

/-- Context selection of lines 341-348: `this` is `none` for a plain
call; `observables` is the manager's source-to-wrapper map. -/
def chooseContext (observables : Nat → Option Nat)
    (thisVal : Option Nat) : ContextVal :=
  match thisVal with
  | some oid =>
    match observables oid with
    | some w => ContextVal.wrapper w
    | none => ContextVal.undefinedCtx
  | none => ContextVal.manager

/-- Modelled from the claim's words, for comparison with
`chooseContext`: the context is the observable wrapper of `this`
whenever such a wrapper exists, and otherwise the Manager
instance. -/
def chooseContextClaimed (observables : Nat → Option Nat)
    (thisVal : Option Nat) : ContextVal :=
  match thisVal with
  | some oid =>
    match observables oid with
    | some w => ContextVal.wrapper w
    | none => ContextVal.manager
  | none => ContextVal.manager

/-- C9 counterexample: for a truthy `this` that was never wrapped,
line 344 makes the context `observables.get(this) = undefined`, not
the Manager the claim promises. -/
theorem chooseContext_counterexample :
    chooseContext (fun _ => none) (some 0) ≠
      chooseContextClaimed (fun _ => none) (some 0) ∧
    chooseContext (fun _ => none) (some 0) = ContextVal.undefinedCtx ∧
    chooseContextClaimed (fun _ => none) (some 0) = ContextVal.manager := by
  refine ⟨?_, rfl, rfl⟩
  intro h
  simp [chooseContext, chooseContextClaimed] at h

/-- C9 (amended): the context passed to the user function is the
observable wrapper of `this` when `this` is truthy and wrapped, the
Manager when `this` is falsy, and `undefined` when `this` is truthy
but was never wrapped (lines 341-348). -/
theorem chooseContext_cases (observables : Nat → Option Nat)
    (thisVal : Option Nat) :
    (thisVal = none → chooseContext observables thisVal =
      ContextVal.manager) ∧
    (∀ oid w, thisVal = some oid → observables oid = some w →
      chooseContext observables thisVal = ContextVal.wrapper w) ∧
    (∀ oid, thisVal = some oid → observables oid = none →
      chooseContext observables thisVal = ContextVal.undefinedCtx) := by
  refine ⟨?_, ?_, ?_⟩
  · intro h; rw [h]; rfl
  · intro oid w ht ho
    rw [ht]; simp [chooseContext, ho]
  · intro oid ht ho
    rw [ht]; simp [chooseContext, ho]

/-- Concrete observables map wrapping source 0 as wrapper 5, used in
the witness. -/
def obsMapW : Nat → Option Nat := fun n => if n = 0 then some 5 else none

theorem chooseContext_cases_witness :
    chooseContext obsMapW none = ContextVal.manager ∧
    chooseContext obsMapW (some 0) = ContextVal.wrapper 5 ∧
    chooseContext obsMapW (some 1) = ContextVal.undefinedCtx :=
  ⟨(chooseContext_cases obsMapW none).1 rfl,
   (chooseContext_cases obsMapW (some 0)).2.1 0 5 rfl rfl,
   (chooseContext_cases obsMapW (some 1)).2.2 1 rfl rfl⟩

end LiveData
